import Mathlib

/-!
Verification development for the bootstrap/update orchestrator `one_click.py`
of the text-generation-webui repository.

The Python source is shallowly embedded: pure helper functions become Lean
functions on `List Char` / `String`; the side-effecting installer functions
become pure functions producing either command plans (`InstallResult`) or
event traces (`List Event`).  External facilities (the filesystem, the
cryptographic digest, the cpuinfo library, the installed torch version) are
inputs to the embedding.  External commands are modelled by the trace of
commands issued, assuming each issued command succeeds; a failing
`assert_success` command only truncates the trace earlier, which none of the
proved properties depend on.
-/

set_option maxHeartbeats 1000000

namespace OneClick

/-! ### Substring machinery

Python `needle in haystack` on strings is a contiguous-substring test, and
`str.replace(old, new)` replaces every non-overlapping occurrence left to
right.  We model strings as `List Char` and define both operations
recursively.
-/

/-- `isPref p s` holds when `p` is a leading segment of `s`
(the check Python performs at each scan position). -/
def isPref : List Char → List Char → Bool
  | [], _ => true
  | _ :: _, [] => false
  | a :: as, b :: bs => a == b && isPref as bs

/-- `containsSub p s` is Python's `p in s` on strings: `p` occurs
contiguously somewhere in `s`. -/
def containsSub (p : List Char) : List Char → Bool
  | [] => isPref p []
  | c :: cs => isPref p (c :: cs) || containsSub p cs

/-- `replaceAll p r s` is Python's `s.replace(p, r)` for a non-empty
pattern `p`: scan left to right, replace each occurrence of `p` by `r`
and continue after it (Python's behaviour for an empty pattern is not
exercised by the source; we return `s` unchanged in that case). -/
def replaceAll (p r s : List Char) : List Char :=
  match p, s with
  | [], _ => s
  | _ :: _, [] => []
  | a :: as, c :: cs =>
    if isPref (a :: as) (c :: cs) then
      r ++ replaceAll (a :: as) r (cs.drop as.length)
    else
      c :: replaceAll (a :: as) r cs
termination_by s.length
decreasing_by
  all_goals simp [List.length_drop]
  all_goals omega

theorem isPref_iff (p s : List Char) : isPref p s = true ↔ ∃ t, s = p ++ t := by
  induction p generalizing s with
  | nil => simp [isPref]
  | cons a as ih =>
    cases s with
    | nil => simp [isPref]
    | cons b bs =>
      simp only [isPref, Bool.and_eq_true, beq_iff_eq, ih]
      constructor
      · rintro ⟨rfl, t, rfl⟩
        exact ⟨t, rfl⟩
      · rintro ⟨t, ht⟩
        cases ht
        exact ⟨rfl, t, rfl⟩

theorem containsSub_iff (p s : List Char) :
    containsSub p s = true ↔ ∃ a b, s = a ++ p ++ b := by
  induction s with
  | nil =>
    simp only [containsSub, isPref_iff]
    constructor
    · rintro ⟨t, ht⟩
      exact ⟨[], t, by simpa using ht⟩
    · rintro ⟨a, b, h⟩
      refine ⟨b, ?_⟩
      have ha : a = [] := by
        cases a with
        | nil => rfl
        | cons x xs => simp at h
      subst ha
      simpa using h
  | cons c cs ih =>
    simp only [containsSub, Bool.or_eq_true, isPref_iff, ih]
    constructor
    · rintro (⟨t, ht⟩ | ⟨a, b, h⟩)
      · exact ⟨[], t, by simpa using ht⟩
      · exact ⟨c :: a, b, by simp [h]⟩
    · rintro ⟨a, b, h⟩
      cases a with
      | nil =>
        left
        exact ⟨b, by simpa using h⟩
      | cons x xs =>
        right
        rw [List.cons_append, List.cons_append] at h
        cases h
        exact ⟨xs, b, rfl⟩

theorem containsSub_eq_false_iff (p s : List Char) :
    containsSub p s = false ↔ ¬ ∃ a b, s = a ++ p ++ b := by
  rw [← containsSub_iff]
  cases h : containsSub p s <;> simp [h]

theorem containsSub_tail {p : List Char} {c : Char} {cs : List Char}
    (h : containsSub p (c :: cs) = false) : containsSub p cs = false := by
  rw [containsSub, Bool.or_eq_false_iff] at h
  exact h.2

theorem containsSub_drop {p : List Char} (k : Nat) :
    ∀ {l : List Char}, containsSub p l = false → containsSub p (l.drop k) = false := by
  induction k with
  | zero => intro l h; simpa using h
  | succ k ih =>
    intro l h
    cases l with
    | nil => simpa using h
    | cons c cs =>
      rw [List.drop_succ_cons]
      exact ih (containsSub_tail h)

theorem replaceAll_nil (p r : List Char) : replaceAll p r [] = [] := by
  cases p <;> simp [replaceAll]

theorem replaceAll_cons (a : Char) (as r : List Char) (c : Char) (cs : List Char) :
    replaceAll (a :: as) r (c :: cs) =
      if isPref (a :: as) (c :: cs) then
        r ++ replaceAll (a :: as) r (cs.drop as.length)
      else
        c :: replaceAll (a :: as) r cs := by
  rw [replaceAll]

/-- A line with no occurrence of the pattern is returned unchanged
(`str.replace` touches nothing else). -/
theorem replaceAll_of_no_occ (a : Char) (as r : List Char) :
    ∀ s : List Char, containsSub (a :: as) s = false → replaceAll (a :: as) r s = s := by
  intro s
  induction s with
  | nil => intro _; exact replaceAll_nil _ _
  | cons c cs ih =>
    intro h
    have h1 : isPref (a :: as) (c :: cs) = false := by
      rw [containsSub, Bool.or_eq_false_iff] at h
      exact h.1
    rw [replaceAll_cons, h1]
    simp [ih (containsSub_tail h)]

theorem append_eq_append_cases (a : List Char) :
    ∀ (b c d : List Char), a ++ b = c ++ d →
      (∃ m, c = a ++ m ∧ b = m ++ d) ∨ (∃ m, a = c ++ m ∧ d = m ++ b) := by
  induction a with
  | nil =>
    intro b c d h
    exact Or.inl ⟨c, rfl, h⟩
  | cons x a' ih =>
    intro b c d h
    cases c with
    | nil =>
      refine Or.inr ⟨x :: a', rfl, ?_⟩
      simpa using h.symm
    | cons y c' =>
      rw [List.cons_append, List.cons_append] at h
      injection h with h1 h2
      subst h1
      rcases ih b c' d h2 with ⟨m, hm1, hm2⟩ | ⟨m, hm1, hm2⟩
      · exact Or.inl ⟨m, by rw [hm1, List.cons_append], hm2⟩
      · exact Or.inr ⟨m, by rw [hm1, List.cons_append], hm2⟩

/-- If a pattern occurs in a concatenation, it occurs in the left part,
in the right part, or straddles the boundary. -/
theorem occ_append_split {a b p pre suf : List Char}
    (h : a ++ b = pre ++ p ++ suf) :
    (∃ pre' suf', a = pre' ++ p ++ suf') ∨
    (∃ pre' suf', b = pre' ++ p ++ suf') ∨
    (∃ p1 p2 pre1 suf2, p = p1 ++ p2 ∧ p1 ≠ [] ∧ p2 ≠ [] ∧
      a = pre1 ++ p1 ∧ b = p2 ++ suf2) := by
  rw [List.append_assoc] at h
  rcases append_eq_append_cases a b pre (p ++ suf) h with ⟨m, hm1, hm2⟩ | ⟨m, hm1, hm2⟩
  · exact Or.inr (Or.inl ⟨m, suf, by rw [hm2, List.append_assoc]⟩)
  · rcases append_eq_append_cases p suf m b hm2 with ⟨m2, hn1, hn2⟩ | ⟨m2, hn1, hn2⟩
    · left
      exact ⟨pre, m2, by rw [hm1, hn1, List.append_assoc]⟩
    · cases m with
      | nil =>
        refine Or.inr (Or.inl ⟨[], suf, ?_⟩)
        simp at hn1
        rw [hn2, hn1]
        simp
      | cons z0 m' =>
        cases m2 with
        | nil =>
          left
          refine ⟨pre, [], ?_⟩
          simp at hn1
          rw [hm1, hn1]
          simp
        | cons z m2' =>
          exact Or.inr (Or.inr ⟨z0 :: m', z :: m2', pre, suf, hn1, by simp, by simp, hm1, hn2⟩)

/-- Prefix transfer: an `x`-free prefix of the output of `replaceAll`
(for patterns and replacement both headed by `x`) is a prefix of the input. -/
theorem pre_replaceAll (x : Char) (q2 u : List Char) :
    ∀ n (s w b : List Char), s.length ≤ n → x ∉ w →
      replaceAll (x :: q2) (x :: u) s = w ++ b →
      ∃ b', s = w ++ b' := by
  intro n
  induction n with
  | zero =>
    intro s w b hs hx h
    have hs0 : s = [] := List.length_eq_zero.mp (Nat.le_zero.mp hs)
    subst hs0
    rw [replaceAll_nil] at h
    have hw : w = [] := by
      cases w with
      | nil => rfl
      | cons d w' => simp at h
    subst hw
    exact ⟨[], rfl⟩
  | succ n ih =>
    intro s w b hs hx h
    cases s with
    | nil =>
      rw [replaceAll_nil] at h
      have hw : w = [] := by
        cases w with
        | nil => rfl
        | cons d w' => simp at h
      subst hw
      exact ⟨[], rfl⟩
    | cons c cs =>
      rw [replaceAll_cons] at h
      by_cases hp : isPref (x :: q2) (c :: cs) = true
      · rw [if_pos hp] at h
        cases w with
        | nil => exact ⟨c :: cs, rfl⟩
        | cons d w' =>
          rw [List.cons_append, List.cons_append] at h
          injection h with h1 h2
          subst h1
          exact absurd (List.mem_cons_self _ _) hx
      · rw [if_neg hp] at h
        cases w with
        | nil => exact ⟨c :: cs, rfl⟩
        | cons d w' =>
          rw [List.cons_append] at h
          injection h with h1 h2
          subst h1
          have hx' : x ∉ w' := fun hm => hx (List.mem_cons_of_mem _ hm)
          have hlen : cs.length ≤ n := by
            simp at hs
            omega
          obtain ⟨b', hb'⟩ := ih cs w' b hlen hx' h2
          exact ⟨b', by rw [hb', List.cons_append]⟩

/-- Core no-new-occurrence lemma for the legacy-CUDA rewrite: replacing
pattern `x::q2` by `x::u` leaves no occurrence of `x::q1` in the output,
provided `x` occurs in neither tail, the tails have the length of `u`,
`q1 ≠ u`, and either `q1` is the very pattern being replaced or `q1` did
not occur in the input. -/
theorem replaceAll_no_occ_out (x : Char) (q1 q2 u : List Char)
    (hxq : x ∉ q1) (hxu : x ∉ u) (hlen : q1.length = u.length) (hne : q1 ≠ u) :
    ∀ n (s : List Char), s.length ≤ n →
      (q1 = q2 ∨ containsSub (x :: q1) s = false) →
      containsSub (x :: q1) (replaceAll (x :: q2) (x :: u) s) = false := by
  intro n
  induction n with
  | zero =>
    intro s hs _
    have hs0 : s = [] := List.length_eq_zero.mp (Nat.le_zero.mp hs)
    subst hs0
    rw [replaceAll_nil]
    simp [containsSub, isPref]
  | succ n ih =>
    intro s hs hd
    cases s with
    | nil =>
      rw [replaceAll_nil]
      simp [containsSub, isPref]
    | cons c cs =>
      rw [replaceAll_cons]
      by_cases hp : isPref (x :: q2) (c :: cs) = true
      · rw [if_pos hp]
        have hdlen : (cs.drop q2.length).length ≤ n := by
          simp [List.length_drop] at hs ⊢
          omega
        have hd' : q1 = q2 ∨ containsSub (x :: q1) (cs.drop q2.length) = false := by
          rcases hd with hq | hc
          · exact Or.inl hq
          · exact Or.inr (containsSub_drop _ (containsSub_tail hc))
        have hT := ih (cs.drop q2.length) hdlen hd'
        rw [containsSub_eq_false_iff]
        rintro ⟨a, b, hab⟩
        rcases occ_append_split hab with
          ⟨pre', suf', h1⟩ | ⟨pre', suf', h2⟩ |
          ⟨p1a, p1b, pre1, suf2, hsplit, hne1, hne2, ha1, hb1⟩
        · have hL := congrArg List.length h1
          simp [List.length_append] at hL
          have hp0 : pre' = [] := List.length_eq_zero.mp (by omega)
          have hs0 : suf' = [] := List.length_eq_zero.mp (by omega)
          subst hp0
          subst hs0
          simp at h1
          exact hne h1.symm
        · rw [containsSub_eq_false_iff] at hT
          exact hT ⟨pre', suf', h2⟩
        · cases p1a with
          | nil => exact hne1 rfl
          | cons d p1a' =>
            rw [List.cons_append] at hsplit
            injection hsplit with hd1 hd2
            subst hd1
            cases pre1 with
            | nil =>
              simp at ha1
              have hLq := congrArg List.length hd2
              rw [← ha1] at hLq
              simp [List.length_append] at hLq
              have hb0 : p1b = [] := List.length_eq_zero.mp (by omega)
              exact hne2 hb0
            | cons e pre1' =>
              rw [List.cons_append] at ha1
              injection ha1 with he1 he2
              subst he1
              exact hxu (by rw [he2]; exact List.mem_append_right _ (List.mem_cons_self _ _))
      · rw [if_neg hp]
        have hd' : q1 = q2 ∨ containsSub (x :: q1) cs = false := by
          rcases hd with hq | hc
          · exact Or.inl hq
          · exact Or.inr (containsSub_tail hc)
        have hT := ih cs (by simp at hs; omega) hd'
        rw [containsSub, Bool.or_eq_false_iff]
        refine ⟨?_, hT⟩
        by_cases hip : isPref (x :: q1) (c :: replaceAll (x :: q2) (x :: u) cs) = true
        · exfalso
          obtain ⟨t, ht⟩ := (isPref_iff _ _).mp hip
          rw [List.cons_append] at ht
          injection ht with h1 h2
          obtain rfl := h1.symm
          obtain ⟨b', hb'⟩ := pre_replaceAll x q2 u cs.length cs q1 t le_rfl hxq h2
          rcases hd with hq | hc
          · subst hq
            apply hp
            rw [hb']
            simp [isPref, (isPref_iff q1 (q1 ++ b')).mpr ⟨b', rfl⟩]
          · rw [containsSub_eq_false_iff] at hc
            exact hc ⟨[], b', by simp [hb']⟩
        · exact eq_false_of_ne_true hip

/-! ### Environment probe (`one_click.py` lines 38-77)

`sys.platform` is abstracted into an OS kind; the claims only concern the
three platforms the script distinguishes.  `cpuinfo` is abstracted as an
optional flag list: `none` models "the facility is unavailable or raised"
(the bare `except:` branch), `some flags` models a successful
`cpuinfo.get_cpu_info()['flags']` lookup. -/

inductive OSKind where
  | linux
  | windows
  | macos
deriving DecidableEq, Repr

def is_linux : OSKind → Bool
  | .linux => true
  | _ => false

def is_windows : OSKind → Bool
  | .windows => true
  | _ => false

def is_macos : OSKind → Bool
  | .macos => true
  | _ => false

/-- `cpu_has_avx2` (lines 54-64): `'avx2' in info['flags']` on success,
`True` when the probe is unavailable or errors. -/
def cpu_has_avx2 (info_flags : Option (List String)) : Bool :=
  match info_flags with
  | some flags => if flags.contains "avx2" then true else false
  | none => true

/-- `cpu_has_amx` (lines 67-77): same shape for the `'amx'` flag. -/
def cpu_has_amx (info_flags : Option (List String)) : Bool :=
  match info_flags with
  | some flags => if flags.contains "amx" then true else false
  | none => true

/-- `calculate_file_hash` (lines 138-144): the digest of the file's bytes
when the file exists, the empty-string sentinel otherwise.  The filesystem
is a map from path to optional byte content; the SHA-256 hex digest is the
external `hashlib` facility, abstracted as a function argument. -/
def calculate_file_hash (sha256hex : List Nat → String)
    (fs : String → Option (List Nat)) (file_path : String) : String :=
  match fs file_path with
  | some bytes => sha256hex bytes
  | none => ""

/-! ### GPU selection and the PyTorch install command (`install_webui`, lines 168-255) -/

/-- The menu dictionary (lines 189-195). -/
def gpu_choice_to_name : List (String × String) :=
  [("A", "NVIDIA"), ("B", "AMD"), ("C", "APPLE"), ("D", "INTEL"), ("N", "NONE")]

/-- Python dict lookup, `none` for a missing key. -/
def dict_get (d : List (String × String)) (k : String) : Option String :=
  (d.find? (fun kv => kv.fst == k)).map Prod.snd

/-- Line 197: `selected_gpu = gpu_choice_to_name["A"]` — the user's `choice`
is in scope but unused; the lookup key is the literal `"A"`. -/
def selected_gpu (_choice : String) : Option String :=
  dict_get gpu_choice_to_name "A"

/-- Line 185: the loop guard `choice not in 'ABCDN'` after
`choice = input("Input> ").upper()`.  Python `in` on strings is a
contiguous-substring test; the loop stops re-prompting exactly when this
returns `true`. -/
def prompt_accepts (input_str : List Char) : Bool :=
  containsSub (input_str.map Char.toUpper) ['A', 'B', 'C', 'D', 'N']

/-- Line 207. -/
def install_pytorch_base : String :=
  "python -m pip install torch==2.1.* torchvision==0.16.* torchaudio==2.1.* "

/-- Line 236. -/
def intel_pytorch_cmd : String :=
  "python -m pip install torch==2.1.0a0 torchvision==0.16.0a0 torchaudio==2.1.0a0 intel-extension-for-pytorch==2.1.10 --extra-index-url https://pytorch-extension.intel.com/release-whl/stable/xpu/us/"

/-- Lines 209-236: how `install_pytorch` is completed from the OS, the
resolved GPU name, and the `use_cuda118` answer string (`'Y'`/`'N'` from the
environment override, or whatever the interactive loop accepted).
`Except.error` models the `sys.exit(1)` in the AMD branch. -/
def install_pytorch_cmd (os : OSKind) (gpu : String) (use_cuda118 : String) :
    Except String String :=
  if (is_windows os || is_linux os) && gpu == "NVIDIA" then
    if use_cuda118 == "Y" then
      Except.ok (install_pytorch_base ++ "--index-url https://download.pytorch.org/whl/cu118")
    else
      Except.ok (install_pytorch_base ++ "--index-url https://download.pytorch.org/whl/cu121")
  else if !is_macos os && gpu == "AMD" then
    if is_linux os then
      Except.ok (install_pytorch_base ++ "--index-url https://download.pytorch.org/whl/rocm5.6")
    else
      Except.error "AMD GPUs are only supported on Linux. Exiting..."
  else if is_linux os && (gpu == "APPLE" || gpu == "NONE") then
    Except.ok (install_pytorch_base ++ "--index-url https://download.pytorch.org/whl/cpu")
  else if gpu == "INTEL" then
    Except.ok intel_pytorch_cmd
  else
    Except.ok install_pytorch_base

/-- Line 245: `'cuda-12.1.1' if use_cuda118 == 'N' else 'cuda-11.8.0'`. -/
def cuda_runtime_cmd (use_cuda118 : String) : String :=
  "conda install -y -c \"nvidia/label/" ++
    (if use_cuda118 == "N" then "cuda-12.1.1" else "cuda-11.8.0") ++
    "\" cuda-runtime"

/-- Lines 243-252: the runtime install commands issued after PyTorch. -/
def runtime_cmds (gpu : String) (use_cuda118 : String) : List String :=
  (if gpu == "NVIDIA" then [cuda_runtime_cmd use_cuda118] else []) ++
  (if gpu == "INTEL" then
    ["conda install -y -c intel dpcpp-cpp-rt=2024.0 mkl-dpcpp=2024.0",
     "conda install -y libuv"]
   else [])

/-- Outcome of the framework-selection part of `install_webui`: either the
fatal configuration error, or the framework install command together with
the runtime install commands. -/
inductive InstallResult where
  | fatal (msg : String)
  | plan (framework : String) (runtime : List String)
deriving DecidableEq, Repr

/-- The install plan `install_webui` produces from the host OS, the
user's GPU choice, and the legacy-CUDA answer; `none` would model the
`KeyError` of a failed dict lookup (unreachable for the pinned key). -/
def install_webui_plan (os : OSKind) (choice : String) (use_cuda118 : String) :
    Option InstallResult :=
  match selected_gpu choice with
  | none => none
  | some gpu =>
    some (match install_pytorch_cmd os gpu use_cuda118 with
      | Except.error msg => InstallResult.fatal msg
      | Except.ok cmd => InstallResult.plan cmd (runtime_cmds gpu use_cuda118))

/-! ### Torch build classification (`update_requirements`, lines 299-304) -/

def cu118L : List Char := ['+', 'c', 'u', '1', '1', '8']

def cu121L : List Char := ['+', 'c', 'u', '1', '2', '1']

def cu122L : List Char := ['+', 'c', 'u', '1', '2', '2']

def is_cuda (torver : List Char) : Bool := containsSub ['+', 'c', 'u'] torver

def is_cuda118 (torver : List Char) : Bool := containsSub cu118L torver

def is_rocm (torver : List Char) : Bool := containsSub ['+', 'r', 'o', 'c', 'm'] torver

def is_intel (torver : List Char) : Bool := containsSub ['+', 'c', 'x', 'x', '1', '1'] torver

def is_cpu (torver : List Char) : Bool := containsSub ['+', 'c', 'p', 'u'] torver

/-- Lines 306-313: the requirements-file choice. -/
def base_requirements (rocm cpu intel : Bool) (os : OSKind) (x86 avx2 : Bool) : String :=
  if rocm then
    "requirements_amd" ++ (if !avx2 then "_noavx2" else "") ++ ".txt"
  else if cpu || intel then
    "requirements_cpu_only" ++ (if !avx2 then "_noavx2" else "") ++ ".txt"
  else if is_macos os then
    "requirements_apple_" ++ (if x86 then "intel" else "silicon") ++ ".txt"
  else
    "requirements" ++ (if !avx2 then "_noavx2" else "") ++ ".txt"

/-! ### Legacy-CUDA requirements patching (lines 321-325) -/

def flashL : List Char := "jllllll/flash-attention".data

/-- Line 323: `req.replace('+cu121', '+cu118').replace('+cu122', '+cu118')`. -/
def legacy_patch_line (req : List Char) : List Char :=
  replaceAll cu122L cu118L (replaceAll cu121L cu118L req)

/-- Lines 322-325: rewrite each line when CUDA 11.8 is installed, and on
Windows additionally drop the flash-attention source lines. -/
def prepare_requirements (cuda118_b windows_b : Bool) (reqs : List (List Char)) :
    List (List Char) :=
  let reqs1 := if cuda118_b then reqs.map legacy_patch_line else reqs
  if windows_b && cuda118_b then
    reqs1.filter (fun req => !containsSub flashL req)
  else
    reqs1

theorem legacy_patch_no121 (req : List Char) :
    containsSub cu121L (legacy_patch_line req) = false := by
  have h1 : containsSub ('+' :: ['c', 'u', '1', '2', '1'])
      (replaceAll ('+' :: ['c', 'u', '1', '2', '1']) ('+' :: ['c', 'u', '1', '1', '8']) req)
      = false :=
    replaceAll_no_occ_out '+' _ _ _ (by decide) (by decide) (by decide) (by decide)
      req.length req le_rfl (Or.inl rfl)
  exact replaceAll_no_occ_out '+' ['c', 'u', '1', '2', '1'] ['c', 'u', '1', '2', '2']
    ['c', 'u', '1', '1', '8'] (by decide) (by decide) (by decide) (by decide)
    _ _ le_rfl (Or.inr h1)

theorem legacy_patch_no122 (req : List Char) :
    containsSub cu122L (legacy_patch_line req) = false :=
  replaceAll_no_occ_out '+' ['c', 'u', '1', '2', '2'] ['c', 'u', '1', '2', '2']
    ['c', 'u', '1', '1', '8'] (by decide) (by decide) (by decide) (by decide)
    _ _ le_rfl (Or.inl rfl)

theorem legacy_patch_id (req : List Char)
    (h121 : containsSub cu121L req = false) (h122 : containsSub cu122L req = false) :
    legacy_patch_line req = req := by
  unfold legacy_patch_line cu121L cu122L
  rw [replaceAll_of_no_occ '+' ['c', 'u', '1', '2', '1'] cu118L req h121]
  exact replaceAll_of_no_occ '+' ['c', 'u', '1', '2', '2'] cu118L req h122

theorem legacy_patch_idem (req : List Char) :
    legacy_patch_line (legacy_patch_line req) = legacy_patch_line req :=
  legacy_patch_id _ (legacy_patch_no121 req) (legacy_patch_no122 req)

/-! ### The update run (`update_requirements`, lines 258-355)

The function is embedded as the trace of observable actions it performs, in
program order.  External commands are assumed to succeed (a failing
`assert_success` command would only truncate the trace earlier); the
external state it consults — the filesystem snapshots around the pull, the
installed torch version, the extensions listing, environment variables,
the `conda list` probe — is collected in `UpdateEnv`. -/

/-- One observable action of `update_requirements`, tagged by source line. -/
inductive Event where
  /-- line 261-262: `git init … git reset --hard origin/main …` -/
  | gitInit
  /-- line 271: `git pull --autostash` -/
  | gitPull
  /-- a `print_big_message` banner -/
  | bigMessage (msg : String)
  /-- a plain `print` -/
  | println (msg : String)
  /-- `exit(code)` / `sys.exit(code)` -/
  | exitProc (code : Nat)
  /-- line 294: `pip install -r extensions/<ext>/requirements.txt --upgrade` -/
  | pipInstallExtension (ext : String)
  /-- line 335: `pip uninstall -y <package_name>` -/
  | pipUninstall (pkg : String)
  /-- line 341: `pip install -r extensions/openai/requirements.txt --upgrade` -/
  | pipInstallOpenai
  /-- line 344: `pip install -r temp_requirements.txt --upgrade` -/
  | pipInstallRequirements
  /-- lines 327-328: writing `temp_requirements.txt` -/
  | writeTempRequirements (lines : List (List Char))
  /-- line 345: `os.remove('temp_requirements.txt')` -/
  | removeTempRequirements
  /-- line 348: `conda list -f pytorch-cuda | grep pytorch-cuda` -/
  | condaListQuery
  /-- line 353: `os.mkdir("repositories")` -/
  | mkdirRepositories
  /-- line 123: `conda clean -a -y` -/
  | condaClean
  /-- line 124: `python -m pip cache purge` -/
  | pipCachePurge
deriving DecidableEq, Repr

/-- The package-manager installation commands the sync guard must fence off
(extension installs, requirements installs, cache cleaning). -/
def isInstallEvent : Event → Bool
  | .pipInstallExtension _ => true
  | .pipInstallOpenai => true
  | .pipInstallRequirements => true
  | .condaClean => true
  | .pipCachePurge => true
  | _ => false

/-- Python truthiness test used on lines 212 and 284:
`value.lower() in ("yes", "y", "true", "1", "t", "on")`. -/
def truthy (s : String) : Bool :=
  ["yes", "y", "true", "1", "t", "on"].contains s.toLower

/-- Lines 264-268. -/
def files_to_check : List String :=
  ["start_linux.sh", "start_macos.sh", "start_windows.bat", "start_wsl.bat",
   "update_linux.sh", "update_macos.sh", "update_windows.bat", "update_wsl.bat",
   "one_click.py"]

/-- Line 288. -/
def skip_extensions : List String := ["superbooga", "superboogav2", "coqui_tts"]

/-- The external state consulted by one `update_requirements` run. -/
structure UpdateEnv where
  /-- whether `<script_dir>/.git` exists (line 260) -/
  git_exists : Bool
  /-- the `hashlib.sha256(...).hexdigest()` facility -/
  sha256hex : List Nat → String
  /-- file bytes by path before the pull -/
  fs_before : String → Option (List Nat)
  /-- file bytes by path after the pull -/
  fs_after : String → Option (List Nat)
  /-- the `initial_installation` parameter -/
  initial_installation : Bool
  /-- the `INSTALL_EXTENSIONS` environment variable, when set -/
  install_extensions_var : Option String
  /-- extension folders that have a `requirements.txt` (line 289) -/
  extensions : List String
  /-- the cpuinfo probe result (see `cpu_has_avx2`) -/
  cpuinfo_flags : Option (List String)
  /-- the installed torch version string (line 299) -/
  torver : List Char
  /-- host OS -/
  os : OSKind
  /-- `platform.machine() == "x86_64"` -/
  x86_64 : Bool
  /-- the lines of the selected requirements file (line 321) -/
  requirements_lines : List (List Char)
  /-- whether `extensions/openai/requirements.txt` exists (line 340) -/
  openai_req_exists : Bool
  /-- whether the `conda list` probe exits with code 1 (line 348) -/
  conda_list_missing : Bool
  /-- whether `repositories/` exists (line 352) -/
  repositories_exists : Bool

/-- Line 270: the pre-pull fingerprint snapshot. -/
def before_pull_hashes (env : UpdateEnv) (file_name : String) : String :=
  calculate_file_hash env.sha256hex env.fs_before file_name

/-- Line 272: the post-pull fingerprint snapshot. -/
def after_pull_hashes (env : UpdateEnv) (file_name : String) : String :=
  calculate_file_hash env.sha256hex env.fs_after file_name

/-- Lines 275-276: the first tracked file whose fingerprints differ (the
loop exits at the first mismatch). -/
def changed_files_first (env : UpdateEnv) : Option String :=
  files_to_check.find? (fun f => before_pull_hashes env f != after_pull_hashes env f)

/-- Line 334: `url.split("/")[-1].split("@")[0].rstrip(".git")` applied to
`req.replace("git+", "")`. -/
def package_name (req : List Char) : List Char :=
  let url := replaceAll ['g', 'i', 't', '+'] [] req
  let last := (url.splitOn '/').getLastD []
  let name := (last.splitOn '@').headD []
  (name.reverse.dropWhile (fun c => c == '.' || c == 'g' || c == 'i' || c == 't')).reverse

/-- Lines 280-296: the extensions-requirements block. -/
def extension_events (env : UpdateEnv) : List Event :=
  let install := match env.install_extensions_var with
    | some v => truthy v
    | none => env.initial_installation
  if install then
    let exts := env.extensions.filter (fun x => !skip_extensions.contains x)
    Event.bigMessage "Installing extensions requirements." ::
      exts.enum.flatMap (fun p =>
        [Event.println ("\n\n--- [" ++ toString (p.fst + 1) ++ "/" ++
            toString exts.length ++ "]: " ++ p.snd ++ "\n\n"),
         Event.pipInstallExtension p.snd])
  else if env.initial_installation then
    [Event.bigMessage "Will not install extensions due to INSTALL_EXTENSIONS environment variable."]
  else
    []

/-- Lines 280-355: everything `update_requirements` does once the stale-code
guard has passed. -/
def post_guard_events (env : UpdateEnv) : List Event :=
  let t := env.torver
  let requirements_file :=
    base_requirements (is_rocm t) (is_cpu t) (is_intel t) env.os env.x86_64
      (cpu_has_avx2 env.cpuinfo_flags)
  let textgen := prepare_requirements (is_cuda118 t) (is_windows env.os) env.requirements_lines
  extension_events env ++
  [Event.bigMessage ("Installing webui requirements from file: " ++ requirements_file),
   Event.println ("TORCH: " ++ String.mk t ++ "\n"),
   Event.writeTempRequirements textgen] ++
  (textgen.filter (fun req => isPref ['g', 'i', 't', '+'] req)).flatMap (fun req =>
    [Event.pipUninstall (String.mk (package_name req)),
     Event.println ("Uninstalled " ++ String.mk (package_name req))]) ++
  (if env.openai_req_exists then [Event.pipInstallOpenai] else []) ++
  [Event.pipInstallRequirements, Event.removeTempRequirements] ++
  (if !(is_cuda t || is_rocm t) then
    Event.condaListQuery ::
      (if env.conda_list_missing then
        [Event.condaClean, Event.pipCachePurge]
      else
        (if env.repositories_exists then [] else [Event.mkdirRepositories]) ++
          [Event.condaClean, Event.pipCachePurge])
  else
    (if env.repositories_exists then [] else [Event.mkdirRepositories]) ++
      [Event.condaClean, Event.pipCachePurge])

/-- `update_requirements` (lines 258-355) as its trace of observable
actions: ensure a checkout exists, pull, compare the fingerprint snapshots,
and either abort (first mismatch, lines 275-278) or continue with the
installation steps. -/
def update_requirements (env : UpdateEnv) : List Event :=
  (if env.git_exists then [] else [Event.gitInit]) ++ [Event.gitPull] ++
  match changed_files_first env with
  | some f =>
    [Event.bigMessage ("File '" ++ f ++ "' was updated during 'git pull'. Please run the script again."),
     Event.exitProc 1]
  | none => post_guard_events env

/-! ### Spec-side definitions used by refinement claims -/

/-- Modelled from the spec (§4.2): requirements-file selection as a total
function of {rocm, cpu-only-or-intel, is-macos, x86_64, avx2}, first match
wins, `_noavx2` appended exactly when AVX2 is absent and never on the apple
files. -/
def base_requirements_spec (rocm cpu_or_intel macos x86 avx2 : Bool) : String :=
  if rocm then
    if avx2 then "requirements_amd.txt" else "requirements_amd_noavx2.txt"
  else if cpu_or_intel then
    if avx2 then "requirements_cpu_only.txt" else "requirements_cpu_only_noavx2.txt"
  else if macos then
    if x86 then "requirements_apple_intel.txt" else "requirements_apple_silicon.txt"
  else
    if avx2 then "requirements.txt" else "requirements_noavx2.txt"

/-! ### Claims -/

/-- C2: whatever GPU choice is supplied — via the `GPU_CHOICE` override or
any accepted interactive input — `install_webui` resolves the selection to
`"NVIDIA"` (line 197 looks up the literal key `"A"`), and consequently the
framework and runtime install commands are identical across choices on the
same host with the same legacy-CUDA answer. -/
theorem gpu_selection_pinned (os : OSKind) (choice choice2 use_cuda118 : String) :
    selected_gpu choice = some "NVIDIA" ∧
    install_webui_plan os choice use_cuda118 = install_webui_plan os choice2 use_cuda118 :=
  ⟨rfl, rfl⟩

/-- C3 counterexample: on Windows with GPU choice "B" (AMD), `install_webui`
does not exit; it produces the ordinary NVIDIA plan (cu121 framework index
plus the cuda-12.1.1 runtime pin), because the selection is pinned to
NVIDIA.  This refutes the claim that AMD on a non-Linux host is fatal with
no plan produced. -/
theorem amd_windows_not_fatal_cex :
    install_webui_plan OSKind.windows "B" "N" =
      some (InstallResult.plan
        (install_pytorch_base ++ "--index-url https://download.pytorch.org/whl/cu121")
        ["conda install -y -c \"nvidia/label/cuda-12.1.1\" cuda-runtime"]) := rfl

/-- With the selection pinned to `"NVIDIA"`, the dispatch always yields an
`Except.ok` command. -/
theorem nvidia_cmd_ok (os : OSKind) (use_cuda118 : String) :
    ∃ c, install_pytorch_cmd os "NVIDIA" use_cuda118 = Except.ok c := by
  cases os <;> unfold install_pytorch_cmd <;>
    simp [is_windows, is_linux, is_macos, intel_pytorch_cmd] <;>
    split <;> exact ⟨_, rfl⟩

/-- C3 (amended): selecting AMD never triggers the fatal path, because the
GPU selection is pinned to NVIDIA, so no choice on any OS makes
`install_webui` exit through the unsupported-configuration branch.  In the
dispatch logic itself (keyed on the resolved GPU name), an "AMD" selection
is fatal exactly on Windows: the guard `not is_macos() and selected_gpu ==
"AMD"` skips macOS entirely, where AMD falls through to the default
(unindexed) framework command, and on Linux AMD gets the ROCm index. -/
theorem amd_dispatch_behavior :
    (∀ (os : OSKind) (choice use_cuda118 msg : String),
      install_webui_plan os choice use_cuda118 ≠ some (InstallResult.fatal msg)) ∧
    (∀ use_cuda118 : String,
      install_pytorch_cmd OSKind.windows "AMD" use_cuda118 =
        Except.error "AMD GPUs are only supported on Linux. Exiting..." ∧
      install_pytorch_cmd OSKind.macos "AMD" use_cuda118 = Except.ok install_pytorch_base ∧
      install_pytorch_cmd OSKind.linux "AMD" use_cuda118 =
        Except.ok (install_pytorch_base ++ "--index-url https://download.pytorch.org/whl/rocm5.6")) := by
  constructor
  · intro os choice use_cuda118 msg h
    obtain ⟨c, hc⟩ := nvidia_cmd_ok os use_cuda118
    have hsel : selected_gpu choice = some "NVIDIA" := rfl
    rw [install_webui_plan, hsel] at h
    simp [hc] at h
  · intro use_cuda118
    refine ⟨?_, ?_, ?_⟩ <;>
      unfold install_pytorch_cmd <;>
      simp [is_windows, is_linux, is_macos]

/-- C3 witness: a concrete instance of the amended claim — on Windows the
pinned plan is not fatal even for choice "B". -/
theorem amd_dispatch_behavior_witness :
    install_webui_plan OSKind.windows "B" "Y" ≠ some (InstallResult.fatal "AMD GPUs are only supported on Linux. Exiting...") :=
  amd_dispatch_behavior.1 OSKind.windows "B" "Y" "AMD GPUs are only supported on Linux. Exiting..."

/-- C4: requirements-file selection in the source (lines 306-313) agrees
everywhere with the spec-side total function of
{rocm, cpu-or-intel, macos, x86_64, avx2} in the documented priority
order, with the `_noavx2` suffix exactly when AVX2 is absent and never on
the apple files. -/
theorem requirements_selection_total (rocm cpu intel : Bool) (os : OSKind) (x86 avx2 : Bool) :
    base_requirements rocm cpu intel os x86 avx2 =
      base_requirements_spec rocm (cpu || intel) (is_macos os) x86 avx2 := by
  cases os <;> revert rocm cpu intel x86 avx2 <;> decide

/-- C5 counterexample: the Y/N validation loop (line 217) is a Python
substring test, so the empty interactive answer is accepted; it yields the
cu121 framework index (the `== 'Y'` test fails) together with the
cuda-11.8.0 runtime pin (the `== 'N'` test also fails), so the runtime pin
does not match the framework index as the claim requires. -/
theorem nvidia_cuda_mismatch_cex :
    install_webui_plan OSKind.linux "A" "" =
      some (InstallResult.plan
        (install_pytorch_base ++ "--index-url https://download.pytorch.org/whl/cu121")
        ["conda install -y -c \"nvidia/label/cuda-11.8.0\" cuda-runtime"]) := rfl

/-- C5 (amended): for NVIDIA on Linux or Windows with a resolved
legacy-CUDA answer of exactly "N" or exactly "Y" — the only values the
`USE_CUDA118` environment override produces — the framework index and the
runtime pin match as claimed: "N" yields cu121 with cuda-12.1.1 and "Y"
yields cu118 with cuda-11.8.0.  (Degenerate interactive answers such as ""
or "YN" also pass validation and break the pairing; see the
counterexample.) -/
theorem nvidia_cuda_matching (os : OSKind) (choice : String)
    (h : os = OSKind.linux ∨ os = OSKind.windows) :
    install_webui_plan os choice "N" =
      some (InstallResult.plan
        (install_pytorch_base ++ "--index-url https://download.pytorch.org/whl/cu121")
        ["conda install -y -c \"nvidia/label/cuda-12.1.1\" cuda-runtime"]) ∧
    install_webui_plan os choice "Y" =
      some (InstallResult.plan
        (install_pytorch_base ++ "--index-url https://download.pytorch.org/whl/cu118")
        ["conda install -y -c \"nvidia/label/cuda-11.8.0\" cuda-runtime"]) := by
  rcases h with rfl | rfl <;> exact ⟨rfl, rfl⟩

/-- C5 witness: the matching commands at the concrete host Linux with menu
choice "A". -/
theorem nvidia_cuda_matching_witness :
    install_webui_plan OSKind.linux "A" "N" =
      some (InstallResult.plan
        (install_pytorch_base ++ "--index-url https://download.pytorch.org/whl/cu121")
        ["conda install -y -c \"nvidia/label/cuda-12.1.1\" cuda-runtime"]) ∧
    install_webui_plan OSKind.linux "A" "Y" =
      some (InstallResult.plan
        (install_pytorch_base ++ "--index-url https://download.pytorch.org/whl/cu118")
        ["conda install -y -c \"nvidia/label/cuda-11.8.0\" cuda-runtime"]) :=
  nvidia_cuda_matching OSKind.linux "A" (Or.inl rfl)

theorem cpu_has_avx2_some (flags : List String) :
    cpu_has_avx2 (some flags) = flags.contains "avx2" := by
  show (if flags.contains "avx2" then true else false) = flags.contains "avx2"
  cases flags.contains "avx2" <;> rfl

theorem cpu_has_amx_some (flags : List String) :
    cpu_has_amx (some flags) = flags.contains "amx" := by
  show (if flags.contains "amx" then true else false) = flags.contains "amx"
  cases flags.contains "amx" <;> rfl

/-- C7: CPU feature detection fails open — an unavailable or failing
cpuinfo probe reports both AVX2 and AMX as present; `false` is returned
only when the probe succeeds and the flag is absent. -/
theorem cpu_feature_fail_open :
    cpu_has_avx2 none = true ∧ cpu_has_amx none = true ∧
    (∀ flags, cpu_has_avx2 (some flags) = flags.contains "avx2") ∧
    (∀ flags, cpu_has_amx (some flags) = flags.contains "amx") ∧
    (∀ probe, cpu_has_avx2 probe = false ↔
      ∃ flags, probe = some flags ∧ flags.contains "avx2" = false) ∧
    (∀ probe, cpu_has_amx probe = false ↔
      ∃ flags, probe = some flags ∧ flags.contains "amx" = false) := by
  refine ⟨rfl, rfl, cpu_has_avx2_some, cpu_has_amx_some, ?_, ?_⟩
  · intro probe
    cases probe with
    | none => simp [cpu_has_avx2]
    | some flags => simp [cpu_has_avx2_some]
  · intro probe
    cases probe with
    | none => simp [cpu_has_amx]
    | some flags => simp [cpu_has_amx_some]

/-- C1: if any tracked orchestration file's fingerprint differs across the
pull, `update_requirements` prints a banner naming a changed tracked file
(the first one the loop meets) and terminates with exit status 1
immediately after the pull, and its trace contains no installation command
at all — no extension install, no requirements install, no cache clean. -/
theorem sync_guard_aborts (env : UpdateEnv)
    (h : ∃ f ∈ files_to_check, before_pull_hashes env f ≠ after_pull_hashes env f) :
    ∃ f, f ∈ files_to_check ∧ before_pull_hashes env f ≠ after_pull_hashes env f ∧
      update_requirements env =
        (if env.git_exists then [] else [Event.gitInit]) ++ [Event.gitPull] ++
        [Event.bigMessage ("File '" ++ f ++ "' was updated during 'git pull'. Please run the script again."),
         Event.exitProc 1] ∧
      ∀ e ∈ update_requirements env, isInstallEvent e = false := by
  obtain ⟨f, hf, hne⟩ := h
  have hsome : (changed_files_first env).isSome := by
    rw [changed_files_first, List.find?_isSome]
    exact ⟨f, hf, by simpa [bne_iff_ne] using hne⟩
  obtain ⟨f0, hf0⟩ := Option.isSome_iff_exists.mp hsome
  have hmem : f0 ∈ files_to_check := List.mem_of_find?_eq_some hf0
  have hne0 : before_pull_hashes env f0 ≠ after_pull_hashes env f0 := by
    have := List.find?_some hf0
    simpa [bne_iff_ne] using this
  have heq : update_requirements env =
      (if env.git_exists then [] else [Event.gitInit]) ++ [Event.gitPull] ++
      [Event.bigMessage ("File '" ++ f0 ++ "' was updated during 'git pull'. Please run the script again."),
       Event.exitProc 1] := by
    unfold update_requirements
    rw [hf0]
  refine ⟨f0, hmem, hne0, heq, ?_⟩
  intro e he
  rw [heq] at he
  cases hg : env.git_exists <;> rw [hg] at he <;> simp at he <;>
    rcases he with rfl | rfl | rfl | rfl <;> rfl

/-- The concrete environment for the C1 witness: every tracked file has
content before the pull and is gone afterwards, so every fingerprint
changes. -/
def guard_env : UpdateEnv where
  git_exists := true
  sha256hex := fun _ => "deadbeef"
  fs_before := fun _ => some [0]
  fs_after := fun _ => none
  initial_installation := false
  install_extensions_var := none
  extensions := []
  cpuinfo_flags := none
  torver := []
  os := OSKind.linux
  x86_64 := true
  requirements_lines := []
  openai_req_exists := false
  conda_list_missing := false
  repositories_exists := true

/-- C1 witness: the guard fires on the concrete `guard_env`. -/
theorem sync_guard_aborts_witness :
    ∃ f, f ∈ files_to_check ∧ before_pull_hashes guard_env f ≠ after_pull_hashes guard_env f ∧
      update_requirements guard_env =
        (if guard_env.git_exists then [] else [Event.gitInit]) ++ [Event.gitPull] ++
        [Event.bigMessage ("File '" ++ f ++ "' was updated during 'git pull'. Please run the script again."),
         Event.exitProc 1] ∧
      ∀ e ∈ update_requirements guard_env, isInstallEvent e = false :=
  sync_guard_aborts guard_env
    ⟨"start_linux.sh", by decide, by
      show calculate_file_hash guard_env.sha256hex guard_env.fs_before "start_linux.sh" ≠
        calculate_file_hash guard_env.sha256hex guard_env.fs_after "start_linux.sh"
      decide⟩

/-- C10: a tracked file that is absent both before and after the pull
fingerprints to the empty-string sentinel on both snapshots, so its two
fingerprints are equal — absence on both sides is indistinguishable from
unchanged content — and the stale-code guard can never abort naming that
file. -/
theorem absent_file_same_hash (env : UpdateEnv) (f : String)
    (h1 : env.fs_before f = none) (h2 : env.fs_after f = none) :
    before_pull_hashes env f = "" ∧ after_pull_hashes env f = "" ∧
    before_pull_hashes env f = after_pull_hashes env f ∧
    changed_files_first env ≠ some f := by
  have hb : before_pull_hashes env f = "" := by
    rw [before_pull_hashes, calculate_file_hash, h1]
  have ha : after_pull_hashes env f = "" := by
    rw [after_pull_hashes, calculate_file_hash, h2]
  refine ⟨hb, ha, by rw [hb, ha], ?_⟩
  intro hc
  have hp := List.find?_some hc
  rw [hb, ha] at hp
  simp at hp

/-- The concrete environment for the C10 witness: no tracked file exists at
either snapshot. -/
def ghost_env : UpdateEnv where
  git_exists := true
  sha256hex := fun _ => "cafe"
  fs_before := fun _ => none
  fs_after := fun _ => none
  initial_installation := false
  install_extensions_var := none
  extensions := []
  cpuinfo_flags := none
  torver := []
  os := OSKind.linux
  x86_64 := true
  requirements_lines := []
  openai_req_exists := false
  conda_list_missing := false
  repositories_exists := true

/-- C10 witness: concrete instance at the file `one_click.py` of `ghost_env`. -/
theorem absent_file_same_hash_witness :
    before_pull_hashes ghost_env "one_click.py" = "" ∧
    after_pull_hashes ghost_env "one_click.py" = "" ∧
    before_pull_hashes ghost_env "one_click.py" = after_pull_hashes ghost_env "one_click.py" ∧
    changed_files_first ghost_env ≠ some "one_click.py" :=
  absent_file_same_hash ghost_env "one_click.py" rfl rfl

theorem map_patch_idem (reqs : List (List Char)) :
    (reqs.map legacy_patch_line).map legacy_patch_line = reqs.map legacy_patch_line := by
  induction reqs with
  | nil => rfl
  | cons r rs ih => simp [legacy_patch_idem, ih]

theorem filter_map_patch_idem (reqs : List (List Char)) :
    (((reqs.map legacy_patch_line).filter (fun req => !containsSub flashL req)).map
        legacy_patch_line).filter (fun req => !containsSub flashL req) =
      (reqs.map legacy_patch_line).filter (fun req => !containsSub flashL req) := by
  induction reqs with
  | nil => rfl
  | cons r rs ih =>
    simp only [List.map_cons, List.filter_cons]
    by_cases h : (!containsSub flashL (legacy_patch_line r)) = true
    · rw [if_pos h]
      simp only [List.map_cons, List.filter_cons, legacy_patch_idem]
      rw [if_pos h, ih]
    · rw [if_neg h]
      exact ih

/-- C6: the legacy-CUDA requirements patch maps each line by replacing
every occurrence of `+cu121` and `+cu122` with `+cu118` and changes
nothing else: a line without either token is returned unchanged, no
occurrence of either token survives in any output line, the full patch is
idempotent (on Windows and elsewhere), and on Windows it removes exactly
the lines containing the flash-attention source package reference. -/
theorem legacy_patch_props :
    (∀ line, containsSub cu121L line = false → containsSub cu122L line = false →
      legacy_patch_line line = line) ∧
    (∀ line, containsSub cu121L (legacy_patch_line line) = false ∧
      containsSub cu122L (legacy_patch_line line) = false) ∧
    (∀ (windows_b : Bool) (reqs : List (List Char)),
      prepare_requirements true windows_b (prepare_requirements true windows_b reqs) =
        prepare_requirements true windows_b reqs) ∧
    (∀ reqs, prepare_requirements true true reqs =
      (reqs.map legacy_patch_line).filter (fun req => !containsSub flashL req)) ∧
    (∀ reqs line, line ∈ prepare_requirements true true reqs →
      containsSub flashL line = false) := by
  refine ⟨legacy_patch_id, fun line => ⟨legacy_patch_no121 line, legacy_patch_no122 line⟩,
    ?_, fun _ => rfl, ?_⟩
  · intro windows_b reqs
    cases windows_b with
    | false =>
      show (reqs.map legacy_patch_line).map legacy_patch_line = reqs.map legacy_patch_line
      exact map_patch_idem reqs
    | true =>
      exact filter_map_patch_idem reqs
  · intro reqs line h
    have h' := List.mem_filter.mp h
    have := h'.2
    simp only [Bool.not_eq_eq_eq_not, Bool.not_true] at this
    simpa using this

/-- C6 witness: a line already using only `+cu118` passes through the
patch unchanged. -/
theorem legacy_patch_props_witness :
    legacy_patch_line "torch==2.1.0+cu118".data = "torch==2.1.0+cu118".data :=
  legacy_patch_props.1 _ (by decide) (by decide)

/-! ### Well-formed torch version strings (for C8)

The spec speaks of "well-formed version strings" without a definition; the
source's own comments (lines 301-304) list the canonical shapes
`2.1.0+cu118`, `2.0.1+rocm5.4.2`, `2.0.1a0+cxx11.abi`, `2.0.1+cpu`.
Accordingly a well-formed version string is a `+`-free release segment
followed by at most one canonical local build tag. -/

/-- Modelled from the spec and the source's examples: the canonical local
build tags of a torch version string. -/
def LocalTag (tag : List Char) : Prop :=
  tag = [] ∨
  tag = ['+', 'c', 'p', 'u'] ∨
  tag = ['+', 'c', 'x', 'x', '1', '1', '.', 'a', 'b', 'i'] ∨
  (∃ d, d ≠ [] ∧ (∀ c ∈ d, c.isDigit = true) ∧ tag = ['+', 'c', 'u'] ++ d) ∨
  (∃ r, '+' ∉ r ∧ tag = ['+', 'r', 'o', 'c', 'm'] ++ r)

/-- Modelled from the spec: a well-formed framework version string is a
release segment without `+` followed by a canonical local tag. -/
def WellFormedVer (v : List Char) : Prop :=
  ∃ base tag, v = base ++ tag ∧ '+' ∉ base ∧ LocalTag tag

theorem no_plus_no_occ (q : List Char) {v : List Char} (hv : '+' ∉ v) :
    containsSub ('+' :: q) v = false := by
  rw [containsSub_eq_false_iff]
  rintro ⟨a, b, rfl⟩
  exact hv (by simp)

theorem plus_split (q : List Char) :
    ∀ (base : List Char) {rest pre suf : List Char}, '+' ∉ base → '+' ∉ rest →
      base ++ '+' :: rest = pre ++ ('+' :: q) ++ suf →
      base = pre ∧ rest = q ++ suf := by
  intro base
  induction base with
  | nil =>
    intro rest pre suf _ hr h
    cases pre with
    | nil =>
      rw [List.nil_append, List.nil_append, List.cons_append] at h
      injection h with _ h2
      exact ⟨rfl, h2⟩
    | cons c pre' =>
      rw [List.nil_append, List.cons_append, List.cons_append] at h
      injection h with h1 h2
      exact absurd (by rw [h2]; simp : '+' ∈ rest) hr
  | cons b0 base' ih =>
    intro rest pre suf hb hr h
    cases pre with
    | nil =>
      rw [List.nil_append, List.cons_append, List.cons_append] at h
      injection h with h1 _
      exact absurd (by rw [h1]; exact List.mem_cons_self _ _ : '+' ∈ b0 :: base') hb
    | cons c pre' =>
      rw [List.cons_append, List.cons_append, List.cons_append] at h
      injection h with h1 h2
      have hb' : '+' ∉ base' := fun hm => hb (List.mem_cons_of_mem _ hm)
      obtain ⟨he1, he2⟩ := ih hb' hr h2
      exact ⟨by rw [h1, he1], he2⟩

theorem tag_flag_eq (base rest q : List Char) (hb : '+' ∉ base) (hr : '+' ∉ rest) :
    containsSub ('+' :: q) (base ++ '+' :: rest) = isPref q rest := by
  cases hpf : isPref q rest with
  | true =>
    obtain ⟨t, rfl⟩ := (isPref_iff _ _).mp hpf
    exact (containsSub_iff _ _).mpr ⟨base, t, by simp⟩
  | false =>
    cases hct : containsSub ('+' :: q) (base ++ '+' :: rest) with
    | false => rfl
    | true =>
      exfalso
      obtain ⟨a, b, hab⟩ := (containsSub_iff _ _).mp hct
      obtain ⟨-, h2⟩ := plus_split q base hb hr hab
      have hpt : isPref q rest = true := (isPref_iff q rest).mpr ⟨b, h2⟩
      rw [hpf] at hpt
      exact Bool.false_ne_true hpt

/-- C8: for a well-formed framework version string, at most one of the four
substring-derived build flags {is_cuda, is_rocm, is_intel, is_cpu} is true;
in particular a string containing `+cpu` does not also set `is_cuda`. -/
theorem build_flags_exclusive (v : List Char) (h : WellFormedVer v) :
    ([is_cuda v, is_rocm v, is_intel v, is_cpu v].count true ≤ 1) ∧
    (is_cpu v = true → is_cuda v = false) := by
  obtain ⟨base, tag, rfl, hb, htag⟩ := h
  rcases htag with rfl | rfl | rfl | ⟨d, hd0, hdd, rfl⟩ | ⟨r, hr, rfl⟩
  · have hb' : '+' ∉ base ++ ([] : List Char) := by simpa using hb
    have h1 : is_cuda (base ++ []) = false := no_plus_no_occ _ hb'
    have h2 : is_rocm (base ++ []) = false := no_plus_no_occ _ hb'
    have h3 : is_intel (base ++ []) = false := no_plus_no_occ _ hb'
    have h4 : is_cpu (base ++ []) = false := no_plus_no_occ _ hb'
    rw [h1, h2, h3, h4]
    decide
  · have h1 : is_cuda (base ++ ['+', 'c', 'p', 'u']) = false :=
      (tag_flag_eq base ['c', 'p', 'u'] ['c', 'u'] hb (by decide)).trans (by decide)
    have h2 : is_rocm (base ++ ['+', 'c', 'p', 'u']) = false :=
      (tag_flag_eq base ['c', 'p', 'u'] ['r', 'o', 'c', 'm'] hb (by decide)).trans (by decide)
    have h3 : is_intel (base ++ ['+', 'c', 'p', 'u']) = false :=
      (tag_flag_eq base ['c', 'p', 'u'] ['c', 'x', 'x', '1', '1'] hb (by decide)).trans (by decide)
    have h4 : is_cpu (base ++ ['+', 'c', 'p', 'u']) = true :=
      (tag_flag_eq base ['c', 'p', 'u'] ['c', 'p', 'u'] hb (by decide)).trans (by decide)
    rw [h1, h2, h3, h4]
    decide
  · have h1 : is_cuda (base ++ ['+', 'c', 'x', 'x', '1', '1', '.', 'a', 'b', 'i']) = false :=
      (tag_flag_eq base ['c', 'x', 'x', '1', '1', '.', 'a', 'b', 'i'] ['c', 'u'] hb
        (by decide)).trans (by decide)
    have h2 : is_rocm (base ++ ['+', 'c', 'x', 'x', '1', '1', '.', 'a', 'b', 'i']) = false :=
      (tag_flag_eq base ['c', 'x', 'x', '1', '1', '.', 'a', 'b', 'i'] ['r', 'o', 'c', 'm'] hb
        (by decide)).trans (by decide)
    have h3 : is_intel (base ++ ['+', 'c', 'x', 'x', '1', '1', '.', 'a', 'b', 'i']) = true :=
      (tag_flag_eq base ['c', 'x', 'x', '1', '1', '.', 'a', 'b', 'i'] ['c', 'x', 'x', '1', '1'] hb
        (by decide)).trans (by decide)
    have h4 : is_cpu (base ++ ['+', 'c', 'x', 'x', '1', '1', '.', 'a', 'b', 'i']) = false :=
      (tag_flag_eq base ['c', 'x', 'x', '1', '1', '.', 'a', 'b', 'i'] ['c', 'p', 'u'] hb
        (by decide)).trans (by decide)
    rw [h1, h2, h3, h4]
    decide
  · have hrest : '+' ∉ ['c', 'u'] ++ d := by
      intro hm
      rcases List.mem_append.mp hm with hm | hm
      · simp at hm
      · exact absurd (hdd '+' hm) (by decide)
    have h1 : is_cuda (base ++ (['+', 'c', 'u'] ++ d)) = true :=
      (tag_flag_eq base (['c', 'u'] ++ d) ['c', 'u'] hb hrest).trans
        ((isPref_iff _ _).mpr ⟨d, rfl⟩)
    have h2 : is_rocm (base ++ (['+', 'c', 'u'] ++ d)) = false :=
      (tag_flag_eq base (['c', 'u'] ++ d) ['r', 'o', 'c', 'm'] hb hrest).trans rfl
    have h3 : is_intel (base ++ (['+', 'c', 'u'] ++ d)) = false :=
      (tag_flag_eq base (['c', 'u'] ++ d) ['c', 'x', 'x', '1', '1'] hb hrest).trans rfl
    have h4 : is_cpu (base ++ (['+', 'c', 'u'] ++ d)) = false :=
      (tag_flag_eq base (['c', 'u'] ++ d) ['c', 'p', 'u'] hb hrest).trans rfl
    rw [h1, h2, h3, h4]
    decide
  · have hrest : '+' ∉ ['r', 'o', 'c', 'm'] ++ r := by
      intro hm
      rcases List.mem_append.mp hm with hm | hm
      · simp at hm
      · exact hr hm
    have h1 : is_cuda (base ++ (['+', 'r', 'o', 'c', 'm'] ++ r)) = false :=
      (tag_flag_eq base (['r', 'o', 'c', 'm'] ++ r) ['c', 'u'] hb hrest).trans rfl
    have h2 : is_rocm (base ++ (['+', 'r', 'o', 'c', 'm'] ++ r)) = true :=
      (tag_flag_eq base (['r', 'o', 'c', 'm'] ++ r) ['r', 'o', 'c', 'm'] hb hrest).trans
        ((isPref_iff _ _).mpr ⟨r, rfl⟩)
    have h3 : is_intel (base ++ (['+', 'r', 'o', 'c', 'm'] ++ r)) = false :=
      (tag_flag_eq base (['r', 'o', 'c', 'm'] ++ r) ['c', 'x', 'x', '1', '1'] hb hrest).trans rfl
    have h4 : is_cpu (base ++ (['+', 'r', 'o', 'c', 'm'] ++ r)) = false :=
      (tag_flag_eq base (['r', 'o', 'c', 'm'] ++ r) ['c', 'p', 'u'] hb hrest).trans rfl
    rw [h1, h2, h3, h4]
    decide

/-- C8 witness: the concrete well-formed version string `2.1.0+cpu`. -/
theorem build_flags_exclusive_witness :
    WellFormedVer "2.1.0+cpu".data ∧
    (([is_cuda "2.1.0+cpu".data, is_rocm "2.1.0+cpu".data,
       is_intel "2.1.0+cpu".data, is_cpu "2.1.0+cpu".data].count true ≤ 1) ∧
     (is_cpu "2.1.0+cpu".data = true → is_cuda "2.1.0+cpu".data = false)) :=
  have hwf : WellFormedVer "2.1.0+cpu".data :=
    ⟨['2', '.', '1', '.', '0'], ['+', 'c', 'p', 'u'], rfl, by decide,
      Or.inr (Or.inl rfl)⟩
  ⟨hwf, build_flags_exclusive _ hwf⟩

/-! ### The GPU prompt loop (for C9) -/

/-- All contiguous substrings of `"ABCDN"`. -/
def abcdn_substrings : List (List Char) :=
  [[], ['A'], ['B'], ['C'], ['D'], ['N'],
   ['A', 'B'], ['B', 'C'], ['C', 'D'], ['D', 'N'],
   ['A', 'B', 'C'], ['B', 'C', 'D'], ['C', 'D', 'N'],
   ['A', 'B', 'C', 'D'], ['B', 'C', 'D', 'N'],
   ['A', 'B', 'C', 'D', 'N']]

theorem containsSub_decomp {w l : List Char} (h : containsSub w l = true) :
    ∃ i t, l.drop i = w ++ t := by
  induction l with
  | nil =>
    rw [containsSub] at h
    obtain ⟨t, ht⟩ := (isPref_iff _ _).mp h
    exact ⟨0, t, by simpa using ht⟩
  | cons c cs ih =>
    rw [containsSub, Bool.or_eq_true] at h
    rcases h with h | h
    · obtain ⟨t, ht⟩ := (isPref_iff _ _).mp h
      exact ⟨0, t, by simpa using ht⟩
    · obtain ⟨i, t, hit⟩ := ih h
      exact ⟨i + 1, t, by simpa [List.drop_succ_cons] using hit⟩

theorem mem_abcdn_substrings (w : List Char)
    (h : containsSub w ['A', 'B', 'C', 'D', 'N'] = true) : w ∈ abcdn_substrings := by
  obtain ⟨i, t, hit⟩ := containsSub_decomp h
  have hw : w = (List.drop i ['A', 'B', 'C', 'D', 'N']).take w.length := by
    rw [hit]
    exact (List.take_left w t).symm
  have hL : w.length ≤ 5 := by
    have hlen := congrArg List.length hit
    simp [List.length_append] at hlen
    omega
  obtain ⟨n, hn⟩ : ∃ n, w.length = n := ⟨w.length, rfl⟩
  rw [hn] at hw hL
  rcases i with _ | _ | _ | _ | _ | i5 <;>
    simp only [List.drop_succ_cons, List.drop_zero, List.drop_nil] at hw <;>
    interval_cases n <;>
    simp at hw <;> subst hw <;> decide

/-- C9 counterexample: the loop guard accepts the empty input and the
two-letter input "ab" (uppercased to "AB"), both of which the claim says
must cause a re-prompt — Python's `choice not in 'ABCDN'` is a substring
test, not a membership test. -/
theorem gpu_prompt_substring_cex :
    prompt_accepts [] = true ∧ prompt_accepts ['a', 'b'] = true := by decide

/-- C9 (amended): the interactive GPU prompt stops re-prompting exactly
when the uppercased input is a contiguous substring of `"ABCDN"`: the
single letters A, B, C, D, N as claimed, but also the empty string and the
contiguous runs AB, BC, CD, DN, ABC, BCD, CDN, ABCD, BCDN, ABCDN. -/
theorem gpu_prompt_accepts_iff (s : List Char) :
    prompt_accepts s = true ↔ (s.map Char.toUpper) ∈ abcdn_substrings := by
  rw [prompt_accepts]
  constructor
  · exact mem_abcdn_substrings _
  · intro h
    generalize hg : List.map Char.toUpper s = w at h ⊢
    fin_cases h <;> decide

/-- C9 witness: the amended characterization at the concrete input "a". -/
theorem gpu_prompt_accepts_iff_witness :
    prompt_accepts ['a'] = true ↔ (['a'].map Char.toUpper) ∈ abcdn_substrings :=
  gpu_prompt_accepts_iff ['a']

end OneClick
